import Mathlib

/-!
Verification of the shadcn-registry-manager MCP server core: the registry
dependency resolver (`registry/api.ts`), the merge engine built on the
`deepmerge` npm package, the HTTP fetch layer (`registry-security.ts`),
the workspace path guard (`utils/security.ts`) and the rate limiter at the
tool-registration boundary (`index.ts`).

The TypeScript sources are shallowly embedded as pure Lean functions.
Effectful calls (HTTP fetches, `getRegistryItem`, `getRegistryIndex`) are
modelled by oracle parameters collected in an `Env` structure: each oracle
maps the request to the value the call would return, or to the error it
would throw (`handleError` in this repository always rethrows, so every
failing call surfaces as a thrown error, never as a `null` result).
-/

namespace SRM

/-- JSON-like values as produced by `JSON.parse`: primitives (strings,
numbers, booleans and null are collapsed into one constructor since the
merge logic only distinguishes arrays / plain objects / everything else),
arrays, and plain objects as insertion-ordered association lists with
distinct keys. -/
inductive JVal where
  | prim (s : String)
  | arr (elems : List JVal)
  | obj (fields : List (String × JVal))
deriving Repr

/-- Association-list lookup, the model of `Map.get` / property access on a
JavaScript object. -/
def alookup {α : Type} : List (String × α) → String → Option α
  | [], _ => none
  | (k0, v0) :: rest, k => if k0 = k then some v0 else alookup rest k

/-- Property assignment `destination[key] = v` on a JavaScript object:
an existing key keeps its position and gets the new value, a new key is
appended at the end (JavaScript string-key insertion order). -/
def setKey : List (String × JVal) → String → JVal → List (String × JVal)
  | [], k, v => [(k, v)]
  | (k0, v0) :: rest, k, v =>
    if k0 = k then (k0, v) :: rest else (k0, v0) :: setKey rest k v

/-- `isMergeableObject` of the `deepmerge` package restricted to JSON data:
plain objects and arrays are mergeable, primitives are not. -/
def isMergeable : JVal → Bool
  | .prim _ => false
  | .arr _ => true
  | .obj _ => true

/-- The own enumerable fields of a merge target: a plain object contributes
its fields, anything else contributes none (in `mergeObject` the target's
keys are copied only when `isMergeableObject(target)` holds). -/
def baseFields : JVal → List (String × JVal)
  | .obj fs => fs
  | _ => []

/-- Keys of a JavaScript object. -/
def objKeys (fields : List (String × JVal)) : List String :=
  fields.map Prod.fst

/-- `lookupKey t k` models `propertyIsOnObject(target, key) ? target[key]`:
on a plain object it is field lookup; on primitives and arrays the guarded
`in` check yields no property. -/
def lookupKey : JVal → String → Option JVal
  | .obj fs, k => alookup fs k
  | _, _ => none

mutual
/-- The `deepmerge` npm package (default options), as called by
`registryResolveItemsTree`: when exactly one of target/source is an array
the source is cloned wholesale; two arrays are concatenated (the default
`arrayMerge` is `target.concat(source)`); otherwise `mergeObject` runs.
Cloning is the identity on pure values. A primitive source contributes no
keys to `mergeObject` (the program never reaches that case: recursion is
guarded by `isMergeableObject(source[key])`). -/
def deepmerge (t s : JVal) : JVal :=
  match t, s with
  | .arr a, .arr b => .arr (a ++ b)
  | .prim _, .arr b => .arr b
  | .obj _, .arr b => .arr b
  | .arr _, .prim p => .prim p
  | .arr _, .obj fs => .obj fs
  | .prim _, .prim _ => .obj []
  | .obj fs, .prim _ => .obj fs
  | .prim p, .obj fs => .obj (mergeFields (.prim p) [] fs)
  | .obj tf, .obj fs => .obj (mergeFields (.obj tf) tf fs)
termination_by (sizeOf s, 0)

/-- The merged value for one source field of `mergeObject`: when the key
is also on the target and the source value is mergeable, the two values
deep-merge; otherwise the (cloned) source value wins. -/
def mergeVal (t : JVal) (k : String) (v : JVal) : JVal :=
  match lookupKey t k, isMergeable v with
  | some tv, true => deepmerge tv v
  | some _, false => v
  | none, _ => v
termination_by (sizeOf v, 1)

/-- The source-key loop of `mergeObject`: assign each source field's
merged value in order. -/
def mergeFields (t : JVal) (dest : List (String × JVal)) :
    List (String × JVal) → List (String × JVal)
  | [] => dest
  | (k, v) :: rest =>
    mergeFields t (setKey dest k (mergeVal t k v)) rest
termination_by l => (sizeOf l, 1)
end

/-- `deepmerge.all(list)` with default options: a left fold of `deepmerge`
over the list starting from the empty object. -/
def deepmergeAll (l : List JVal) : JVal :=
  l.foldl deepmerge (.obj [])

/-- A registry file descriptor. Modelled from the spec: the registry item
schema module (`registry/schema`) is not under `src/`; §3 of the spec
describes each file as carrying a relative target path, content, and a
file-kind tag. -/
structure FileD where
  target : String
  content : String
  kind : String
deriving Repr, DecidableEq

/-- A registry item as consumed by `registryResolveItemsTree`. List- and
tree-valued fields are `Option`s because the zod schema marks them optional
and the resolver tests their presence with JavaScript truthiness
(`if (item.registryDependencies)`, `item.dependencies ?? []`,
`item.tailwind ?? {}`). -/
structure RItem where
  name : String
  type : String
  registryDependencies : Option (List String) := none
  dependencies : Option (List String) := none
  devDependencies : Option (List String) := none
  files : Option (List FileD) := none
  tailwind : Option JVal := none
  cssVars : Option JVal := none
  css : Option JVal := none
  docs : Option String := none
deriving Repr

/-- The minimal placeholder item pushed by `registryResolveItemsTree` when
a batch registry fetch does not parse as an item array
(`{ name, type: 'registry:component', files: [], dependencies: [],
devDependencies: [], registryDependencies: [] }`). -/
def placeholderItem (name : String) : RItem :=
  { name := name
    type := "registry:component"
    files := some []
    dependencies := some []
    devDependencies := some []
    registryDependencies := some [] }

/-- The comparator passed to `payload.sort` in `registryResolveItemsTree`:
`(a, b) => a.type === "registry:theme" ? -1 : 1`. It never inspects `b`,
so it is not a consistent comparator: two theme items compare `-1` in both
orders and two non-theme items compare `1` in both orders. -/
def themeCompare (a _b : RItem) : Int :=
  if a.type = "registry:theme" then -1 else 1

/-- Whether an item is a theme item. -/
def isTheme (it : RItem) : Bool :=
  it.type = "registry:theme"

/-- The binary search of V8's `Array.prototype.sort` insertion phase:
find the slot for `pivot` in `sorted[lo..hi)` by halving, descending left
when `comparefn(pivot, sorted[mid]) < 0`. The list default passed to
`getD` is never read because `mid < hi ≤ length` throughout. -/
def binSearchPos (cmp : RItem → RItem → Int) (pivot : RItem)
    (sorted : List RItem) (lo hi : Nat) : Nat :=
  if _h : lo < hi then
    let mid := (lo + hi) / 2
    if cmp pivot (sorted.getD mid pivot) < 0 then
      binSearchPos cmp pivot sorted lo mid
    else
      binSearchPos cmp pivot sorted (mid + 1) hi
  else lo
termination_by hi - lo
decreasing_by
  all_goals simp only [mid] at *
  all_goals omega

/-- One binary-insertion step: place `x` at the slot the binary search
returns. -/
def binInsert (cmp : RItem → RItem → Int) (sorted : List RItem)
    (x : RItem) : List RItem :=
  let pos := binSearchPos cmp x sorted 0 sorted.length
  sorted.take pos ++ x :: sorted.drop pos

/-- `Array.prototype.sort(comparefn)` as Node's V8 engine executes it on
short arrays (length below the TimSort run threshold): binary insertion of
each element into the sorted prefix. For the inconsistent `themeCompare`
comparator the initial run detection of TimSort coincides with plain
binary insertion, so this is the array order the program computes. -/
def jsSort (cmp : RItem → RItem → Int) (l : List RItem) : List RItem :=
  l.foldl (binInsert cmp) []

/-- `Array.from(new Set(xs))`: insertion-ordered set semantics, keeping the
first occurrence of every element. -/
def setDedup (l : List String) : List String :=
  l.foldl (fun acc x => if x ∈ acc then acc else acc ++ [x]) []

/-- The spec's own description of step 7 of the resolver algorithm
("Deduplicate by name, first occurrence wins"), written independently of
the code for comparison: keep each element's first occurrence, erase the
rest. -/
def dedupFirstSpec : List String → List String
  | [] => []
  | x :: xs => x :: dedupFirstSpec (xs.filter (fun y => y ≠ x))
termination_by l => l.length
decreasing_by
  have := List.length_filter_le (fun y => y ≠ x) xs
  simp only [List.length_cons]
  omega

/-- The effect oracles of one resolution pass. Each field records what the
corresponding effectful call would produce for a given request; errors
model thrown exceptions (`handleError` always rethrows in this repository,
so no fallible call ever returns `null` to its caller). -/
structure Env where
  /-- `isUrl(s)`: whether `new URL(s)` parses. -/
  isU : String → Bool
  /-- `getRegistryItem(ref, style)` outcomes, keyed by the reference. The
  style argument only selects the URL the fetch targets, which the oracle
  absorbs. A reference absent from the table fails to fetch. -/
  table : List (String × Except String RItem)
  /-- Whether a `config` argument is passed to
  `resolveDependenciesRecursively` (in `registryResolveItemsTree` it
  always is; the model keeps the guard faithful). -/
  cfg : Bool
  /-- `getRegistryIndex()` outcome; the resolver only tests that it did
  not throw, never its content. -/
  indexFetch : Except String Unit
  /-- `getRegistryUrl` applied to a registry name or URL inside
  `resolveRegistryDependencies`. -/
  nameToUrl : String → String
  /-- `fetchRegistry(registryItems)` followed by
  `z.array(registryItemSchema).safeParse`: `ok (some items)` is a
  successful parse, `ok none` a failed parse (placeholders ensue),
  `error` a thrown fetch failure. -/
  fetchBatch : List String → Except String (Option (List RItem))
  /-- `registryGetTheme(baseColor, config)` outcome. -/
  themeFetch : Except String RItem
  /-- Whether `config.tailwind.baseColor` is set. -/
  baseColor : Bool

/-- `isLocalFile` from `registry/utils` (the module itself is not under
`src/`; `registry-security.ts` in this repository defines the function as
`str.endsWith('.json') && !isUrl(str)`, matching the spec's "not a URL and
ends with a recognized data-file extension"). -/
def isLocalFile (env : Env) (s : String) : Bool :=
  s.endsWith ".json" && !(env.isU s)

/-- `getRegistryItem` against the oracle table: the recorded outcome, or a
thrown not-found error for unknown references. -/
def fetchItem (env : Env) (ref : String) : Except String RItem :=
  (alookup env.table ref).getD (Except.error "Failed to fetch from registry.")

/-- Outcome of `resolveDependenciesRecursively`: on success the collected
items, the collected registry names, and the trace of names newly added to
the shared visited set; on a thrown error, the error and the trace of
names the shared set retains from before the throw (the JavaScript `Set`
is mutated in place, so additions survive a throw). -/
inductive DepRes where
  | ok (items : List RItem) (names : List String) (tr : List String)
  | err (e : String) (tr : List String)
deriving Repr

/-- The visited-set additions of a `resolveDependenciesRecursively` call,
whether it returned or threw. -/
def traceOf : DepRes → List String
  | .ok _ _ tr => tr
  | .err _ tr => tr

/-- The registry names a `resolveDependenciesRecursively` call collected
(empty if it threw). -/
def namesOf : DepRes → List String
  | .ok _ ns _ => ns
  | .err _ _ => []

/-- References the oracle table can resolve. -/
def tableNames (env : Env) : List String :=
  env.table.map Prod.fst

/-- Termination fuel part one: how many resolvable references are not yet
in the visited set. -/
def remaining (env : Env) (visited : List String) : Nat :=
  ((tableNames env).toFinset.filter (fun n => n ∉ visited)).card

/-- The registry-dependency fan-out of one oracle entry. -/
def rdLen : Except String RItem → Nat
  | .ok it => (it.registryDependencies.getD []).length
  | .error _ => 0

/-- A strict upper bound on the registry-dependency fan-out of any oracle
entry. -/
def depBound (env : Env) : Nat :=
  ((env.table.map fun p => rdLen p.2).foldr max 0) + 1

/-- The termination measure of `resolveDeps`: every recursive step either
shrinks the worklist with the visited set only growing, or descends into
the dependencies of a newly visited resolvable reference. -/
def depMeasure (env : Env) (deps visited : List String) : Nat :=
  depBound env * remaining env visited + deps.length

/-- `resolveDependenciesRecursively(dependencies, config, visited)` from
`registry/api.ts`. The shared mutable visited `Set` becomes explicit state:
each recursive call receives the current set and reports its additions in
the trace, which the continuation unions in. The URL/local-file branch
fetches and propagates fetch errors; the registry-name branch records the
name, and its `try`/`catch` swallows fetch and nested-resolution errors
(keeping the visited additions made before the throw). -/
def resolveDeps (env : Env) : (deps : List String) → (visited : List String) → DepRes
  | [], _ => .ok [] [] []
  | dep :: rest, visited =>
    if hvis : dep ∈ visited then
      resolveDeps env rest visited
    else
      if env.isU dep || isLocalFile env dep then
        match hfetch : fetchItem env dep with
        | .error e => .err e [dep]
        | .ok item =>
          match hrd : item.registryDependencies with
          | some rdeps =>
            match resolveDeps env rdeps (dep :: visited) with
            | .err e tr => .err e (dep :: tr)
            | .ok nItems nNames nTr =>
              match resolveDeps env rest (nTr ++ dep :: visited) with
              | .err e tr => .err e (dep :: nTr ++ tr)
              | .ok cItems cNames cTr =>
                .ok (item :: nItems ++ cItems) (nNames ++ cNames) (dep :: nTr ++ cTr)
          | none =>
            match resolveDeps env rest (dep :: visited) with
            | .err e tr => .err e (dep :: tr)
            | .ok cItems cNames cTr => .ok (item :: cItems) cNames (dep :: cTr)
      else
        if env.cfg then
          match hfetch : fetchItem env dep with
          | .error _ =>
            match resolveDeps env rest (dep :: visited) with
            | .err e tr => .err e (dep :: tr)
            | .ok cItems cNames cTr => .ok cItems (dep :: cNames) (dep :: cTr)
          | .ok item =>
            match hrd : item.registryDependencies with
            | some rdeps =>
              match resolveDeps env rdeps (dep :: visited) with
              | .err _ eTr =>
                match resolveDeps env rest (eTr ++ dep :: visited) with
                | .err e tr => .err e (dep :: eTr ++ tr)
                | .ok cItems cNames cTr => .ok cItems (dep :: cNames) (dep :: eTr ++ cTr)
              | .ok nItems nNames nTr =>
                match resolveDeps env rest (nTr ++ dep :: visited) with
                | .err e tr => .err e (dep :: nTr ++ tr)
                | .ok cItems cNames cTr =>
                  .ok (nItems ++ cItems) (dep :: nNames ++ cNames) (dep :: nTr ++ cTr)
            | none =>
              match resolveDeps env rest (dep :: visited) with
              | .err e tr => .err e (dep :: tr)
              | .ok cItems cNames cTr => .ok cItems (dep :: cNames) (dep :: cTr)
        else
          match resolveDeps env rest (dep :: visited) with
          | .err e tr => .err e (dep :: tr)
          | .ok cItems cNames cTr => .ok cItems (dep :: cNames) (dep :: cTr)
termination_by deps visited => depMeasure env deps visited
decreasing_by
  all_goals simp only [depMeasure]
  all_goals
    first
    | -- continue along the worklist (or skip): the visited set only grew
      (refine add_lt_add_of_le_of_lt (Nat.mul_le_mul_left _ ?_) ?_
       · apply Finset.card_le_card
         intro n hn
         simp only [Finset.mem_filter, List.mem_cons, List.mem_append] at hn ⊢
         exact ⟨hn.1, fun hm => hn.2 (by tauto)⟩
       · simp only [List.length_cons]
         omega)
    | -- descend into the dependencies of a newly visited resolvable name
      (have key : ∀ (l : List (String × Except String RItem)),
          alookup l dep = some (Except.ok item) →
          dep ∈ l.map Prod.fst ∧
            rdLen (Except.ok item) ≤ (l.map fun p => rdLen p.2).foldr max 0 := by
        intro l
        induction l with
        | nil => intro h; simp [alookup] at h
        | cons p ps ih =>
          intro h
          simp only [alookup] at h
          by_cases hk : p.1 = dep
          · rw [if_pos hk] at h
            injection h with h
            refine ⟨by simp [← hk], ?_⟩
            simp only [List.map_cons, List.foldr_cons, h]
            exact le_max_left _ _
          · rw [if_neg hk] at h
            rcases ih h with ⟨h1, h2⟩
            exact ⟨by simp [h1], le_trans h2 (by
              simp only [List.map_cons, List.foldr_cons]
              exact le_max_right _ _)⟩
       have halk : alookup env.table dep = some (Except.ok item) := by
        rcases h2 : alookup env.table dep with _ | r
        · simp [fetchItem, h2] at hfetch
        · simp only [fetchItem, h2, Option.getD_some] at hfetch
          rw [hfetch]
       rcases key env.table halk with ⟨hdmem, hrdlen⟩
       have hrdlen2 : rdeps.length < depBound env := by
        have h3 : rdLen (Except.ok item) = rdeps.length := by
          simp [rdLen, hrd]
        rw [h3] at hrdlen
        simp only [depBound]
        omega
       have hstrict : remaining env (dep :: visited) < remaining env visited := by
        apply Finset.card_lt_card
        rw [Finset.ssubset_iff_of_subset]
        · refine ⟨dep, ?_, ?_⟩
          · simp only [Finset.mem_filter, List.mem_toFinset]
            exact ⟨by simpa [tableNames] using hdmem, hvis⟩
          · simp
        · intro n hn
          simp only [Finset.mem_filter, List.mem_cons] at hn ⊢
          exact ⟨hn.1, fun hm => hn.2 (Or.inr hm)⟩
       have h1 : remaining env (dep :: visited) + 1 ≤ remaining env visited := hstrict
       have hfin : depBound env * remaining env (dep :: visited) + rdeps.length
           < depBound env * remaining env visited := by
        calc depBound env * remaining env (dep :: visited) + rdeps.length
            < depBound env * remaining env (dep :: visited) + depBound env := by omega
          _ = depBound env * (remaining env (dep :: visited) + 1) := by ring
          _ ≤ depBound env * remaining env visited := Nat.mul_le_mul_left _ h1
       exact Nat.lt_of_lt_of_le hfin (Nat.le_add_right _ _))

/-- The local-file / URL loops at the top of `registryResolveItemsTree`:
fetch each reference in order, pushing the item and appending its declared
registry dependencies to `allDependencies`. A fetch error propagates (the
loops have no `try`, and `getRegistryItem` rethrows via `handleError`, so
the `else`-placeholder branch of the source is unreachable). -/
def fetchDirect (env : Env) : List String → Except String (List RItem × List String)
  | [] => .ok ([], [])
  | r :: rest =>
    match fetchItem env r with
    | .error e => .error e
    | .ok item =>
      match fetchDirect env rest with
      | .error e => .error e
      | .ok (items, deps) =>
        .ok (item :: items, item.registryDependencies.getD [] ++ deps)

/-- The registry-name deduplication step of `registryResolveItemsTree`:
`Array.from(new Set(allRegistryNames))`, then, when "index" is among the
names, `unshift("index")` — which prepends a second copy of "index" in
front of the already-deduplicated list. -/
def uniqueRegistryNames (l : List String) : List String :=
  let u := setDedup l
  if "index" ∈ u then "index" :: u else u

/-- `resolveRegistryDependencies(name, config)`: run the recursive
resolver on the single name with a fresh visited set, map every collected
registry name through `getRegistryUrl`, and deduplicate the URLs. A thrown
resolver error propagates. -/
def resolveRegistryDependenciesModel (env : Env) (name : String) :
    Except String (List String) :=
  match resolveDeps env [name] [] with
  | .err e _ => .error e
  | .ok _ rns _ => .ok (setDedup (rns.map env.nameToUrl))

/-- `resolveRegistryItems(names, config)`: keep the names that are neither
URLs nor local files, expand each through `resolveRegistryDependencies`,
concatenate and deduplicate. -/
def resolveRegistryItemsModel (env : Env) (names : List String) :
    Except String (List String) :=
  let rns := names.filter (fun n => !(isLocalFile env n) && !(env.isU n))
  match go rns with
  | .error e => .error e
  | .ok urls => .ok (setDedup urls)
where
  go : List String → Except String (List String)
    | [] => .ok []
    | n :: rest =>
      match resolveRegistryDependenciesModel env n with
      | .error e => .error e
      | .ok urls =>
        match go rest with
        | .error e => .error e
        | .ok more => .ok (urls ++ more)

/-- The ordered item list `registryResolveItemsTree` assembles and sorts
(the `payload` array right before the merge folds): local files, then
URLs, then recursively resolved dependency items, then batch-resolved
registry items (or placeholders when the batch fails to parse), with the
synthetic base-color theme prepended when "index" was requested, finally
sorted by the theme comparator. `ok none` models the `return null` on an
empty payload; `error` models a thrown failure. -/
def resolveItemList (env : Env) (names : List String) :
    Except String (Option (List RItem)) :=
  let localFiles := names.filter (isLocalFile env)
  let urls := names.filter env.isU
  let registryNames := names.filter (fun n => !(isLocalFile env n) && !(env.isU n))
  match fetchDirect env localFiles with
  | .error e => .error e
  | .ok (localItems, localDeps) =>
    match fetchDirect env urls with
    | .error e => .error e
    | .ok (urlItems, urlDeps) =>
      match resolveDeps env (localDeps ++ urlDeps) [] with
      | .err e _ => .error e
      | .ok depItems depNames _ =>
        let payload0 := localItems ++ urlItems ++ depItems
        let allRegistryNames := registryNames ++ depNames
        let step :=
          if allRegistryNames.length > 0 then
            match env.indexFetch with
            | .error e => Except.error e
            | .ok _ =>
              let uniq := uniqueRegistryNames allRegistryNames
              match resolveRegistryItemsModel env uniq with
              | .error e => Except.error e
              | .ok registryItemUrls =>
                match env.fetchBatch registryItemUrls with
                | .error e => Except.error e
                | .ok (some items) => Except.ok (payload0 ++ items)
                | .ok none => Except.ok (payload0 ++ uniq.map placeholderItem)
          else Except.ok payload0
        match step with
        | .error e => .error e
        | .ok payload1 =>
          if payload1.isEmpty then .ok none
          else
            if allRegistryNames.contains "index" && env.baseColor then
              match env.themeFetch with
              | .error e => .error e
              | .ok theme => .ok (some (jsSort themeCompare (theme :: payload1)))
            else .ok (some (jsSort themeCompare payload1))

/-- The merged `dependencies` field of the resolved tree:
`deepmerge.all(payload.map((item) => item.dependencies ?? []))`. -/
def treeDependencies (payload : List RItem) : JVal :=
  deepmergeAll (payload.map fun it => .arr ((it.dependencies.getD []).map .prim))

/-- The merged `devDependencies` field of the resolved tree. -/
def treeDevDependencies (payload : List RItem) : JVal :=
  deepmergeAll (payload.map fun it => .arr ((it.devDependencies.getD []).map .prim))

/-- A file descriptor as a JSON object, for the `files` merge. -/
def fileJVal (f : FileD) : JVal :=
  .obj [("target", .prim f.target), ("content", .prim f.content),
    ("type", .prim f.kind)]

/-- The merged `files` field of the resolved tree:
`deepmerge.all(payload.map((item) => item.files ?? []))`. -/
def treeFiles (payload : List RItem) : JVal :=
  deepmergeAll (payload.map fun it => .arr ((it.files.getD []).map fileJVal))

/-- The `tailwind` accumulation loop of `registryResolveItemsTree`:
`payload.forEach((item) => tailwind = deepmerge(tailwind, item.tailwind ?? {}))`. -/
def mergedTailwind (payload : List RItem) : JVal :=
  payload.foldl (fun acc it => deepmerge acc (it.tailwind.getD (.obj []))) (.obj [])

/-- The `cssVars` accumulation loop of `registryResolveItemsTree`. -/
def mergedCssVars (payload : List RItem) : JVal :=
  payload.foldl (fun acc it => deepmerge acc (it.cssVars.getD (.obj []))) (.obj [])

/-- The `css` accumulation loop of `registryResolveItemsTree`. -/
def mergedCss (payload : List RItem) : JVal :=
  payload.foldl (fun acc it => deepmerge acc (it.css.getD (.obj []))) (.obj [])

/-- The `docs` concatenation loop of `registryResolveItemsTree`: present
docs are appended in payload order, each followed by a newline. -/
def mergedDocs (payload : List RItem) : String :=
  payload.foldl (fun acc it =>
    match it.docs with
    | some d => acc ++ d ++ "\n"
    | none => acc) ""

/-- The names of the items an item-list outcome carries (for stating
duplicate-name facts without item equality). -/
def itemNames (r : Except String (Option (List RItem))) : List String :=
  match r with
  | .ok (some l) => l.map RItem.name
  | _ => []

/-- `updateDependencies` (mcp `updaters/update-dependencies.ts`): before
installing, `dependencies = Array.from(new Set(dependencies))` and
likewise for dev dependencies — dedup by the dependency string, keeping
first occurrences in order. -/
def updateDependenciesDedup (deps : List String) : List String :=
  setDedup deps

/-- Modelled from the spec: the file-writing updater module
(`updaters/update-files`) is not under `src/`. §4.4–§4.5: files are
written in list order to their target paths, so "the last item
contributing a given target path wins" — the final content at a target is
that of the last descriptor naming it. -/
def finalContentAt (files : List FileD) (t : String) : Option String :=
  files.foldl (fun acc f => if f.target = t then some f.content else acc) none

/-! ### HTTP layer: `fetchRegistry` and `registry-security.ts` -/

/-- An HTTP response as `node-fetch` presents it to `fetchRegistry`:
status, status text, the relevant headers, and the body text. -/
structure HttpResp where
  status : Nat
  statusText : String
  contentType : Option String
  contentLength : Option Nat
  bodyText : String
deriving Repr

/-- `response.ok` of node-fetch: status in the 2xx range. -/
def respOk (r : HttpResp) : Bool :=
  200 ≤ r.status && r.status < 300

/-- Whether `needle` occurs contiguously inside `hay`. -/
def listSub (needle : List Char) : List Char → Bool
  | [] => needle.isEmpty
  | c :: rest => needle.isPrefixOf (c :: rest) || listSub needle rest

/-- Substring test, the model of JavaScript `String.prototype.includes`. -/
def hasSub (needle hay : String) : Bool :=
  listSub needle.data hay.data

/-- `String.prototype.startsWith`, on character lists. -/
def strStarts (pre s : String) : Bool :=
  pre.data.isPrefixOf s.data

/-- `String.prototype.endsWith`, on character lists. -/
def strEnds (suf s : String) : Bool :=
  suf.data.isSuffixOf s.data

/-- The null character. -/
def nullChar : Char := Char.ofNat 0

/-- `validateHttpResponse(response)` from `registry-security.ts` with the
default expected content type: any non-2xx status throws the generic
`HTTP error: <status> <statusText>` message; then a present content-type
lacking "application/json" throws; then a declared content length above
50 MiB throws. -/
def validateHttpResponse (r : HttpResp) : Except String Unit :=
  if !(respOk r) then
    .error ("HTTP error: " ++ toString r.status ++ " "
      ++ (if r.statusText = "" then "Unknown error" else r.statusText))
  else if (match r.contentType with
           | some ct => !(hasSub "application/json" ct)
           | none => false) then
    .error ("Unexpected content type: " ++ r.contentType.getD "")
  else if (match r.contentLength with
           | some n => decide (n > 50 * 1024 * 1024)
           | none => false) then
    .error ("Response too large: " ++ toString (r.contentLength.getD 0)
      ++ " bytes (max: 52428800)")
  else .ok ()

/-- `safeJsonParse(response, maxSize)`: size cap, null-byte check, then
`JSON.parse` (the parse oracle returns `none` where `JSON.parse` would
throw). -/
def safeJsonParse (parse : String → Option JVal) (r : HttpResp)
    (maxSize : Nat) : Except String JVal :=
  if r.bodyText.length > maxSize then
    .error ("JSON response too large: " ++ toString r.bodyText.length
      ++ " bytes (max: " ++ toString maxSize ++ ")")
  else if r.bodyText.data.contains nullChar then
    .error "JSON contains null bytes"
  else
    match parse r.bodyText with
    | some v => .ok v
    | none => .error "Invalid JSON response"

/-- The `errorMessages` table of `fetchRegistry`, with JavaScript's
`undefined` stringification for unmapped statuses. -/
def errorMessageFor (status : Nat) : String :=
  if status = 400 then "Bad request"
  else if status = 401 then "Unauthorized"
  else if status = 403 then "Forbidden"
  else if status = 404 then "Not found"
  else if status = 500 then "Internal server error"
  else "undefined"

/-- `response.statusText || errorMessages[response.status]`. -/
def statusTextOr (r : HttpResp) : String :=
  if r.statusText = "" then errorMessageFor r.status else r.statusText

/-- The per-path body of `fetchRegistry` after the network `fetch`
settles: `validateHttpResponse` runs first, then the
status-discriminating branches, then `safeJsonParse` on success.
Because `validateHttpResponse` already throws on every non-ok response,
the 401/404/403 branches and the generic non-ok branch below it are
unreachable; they are translated faithfully nonetheless. In the generic
branch the `throw` built from the parsed error body sits inside its own
`try`, whose `catch` replaces it, so that branch always surfaces the
status-text message. -/
def processResponse (parse : String → Option JVal) (url : String)
    (r : HttpResp) : Except String JVal :=
  match validateHttpResponse r with
  | .error e => .error e
  | .ok _ =>
    if !(respOk r) then
      if r.status = 401 then
        .error ("You are not authorized to access the component at " ++ url
          ++ ".\nIf this is a remote registry, you may need to authenticate.")
      else if r.status = 404 then
        .error ("The component at " ++ url
          ++ " was not found.\nIt may not exist at the registry. Please make sure it is a valid component.")
      else if r.status = 403 then
        .error ("You do not have access to the component at " ++ url
          ++ ".\nIf this is a remote registry, you may need to authenticate or a token.")
      else
        .error ("Failed to fetch from " ++ url ++ ".\n" ++ statusTextOr r)
    else
      safeJsonParse parse r (10 * 1024 * 1024)

/-- One path of `fetchRegistry` against a stream of responses the network
would serve for successive requests to that URL: exactly one response is
consumed — there is no retry loop — and an empty stream models a network
layer that never answers (the thrown fetch error). -/
def fetchRegistryPath (parse : String → Option JVal) (url : String) :
    List HttpResp → Except String JVal × List HttpResp
  | [] => (.error "request failed", [])
  | r :: more => (processResponse parse url r, more)

/-! ### The module-level registry cache

`registryCache` is a `Map<string, Promise<any>>`. The per-path closure of
`fetchRegistry` stores the fetch promise under the resolved URL *before*
awaiting it, so the entry's eventual settlement (value or rejection) is
fixed at insertion and shared by every later reader; a settled promise is
modelled by its settlement outcome. -/

/-- One cache-aware path fetch of `fetchRegistry`: with caching enabled a
hit returns the stored settlement without touching the network, a miss
consults the network oracle once and stores the outcome — rejection
included; with caching disabled the network is always consulted and the
cache untouched. Returns (outcome, cache after, URLs requested). -/
def fetchCached (net : String → Except String JVal)
    (cache : List (String × Except String JVal)) (useCache : Bool)
    (url : String) :
    Except String JVal × List (String × Except String JVal) × List String :=
  if useCache then
    match alookup cache url with
    | some r => (r, cache, [])
    | none => ((net url), (url, net url) :: cache, [url])
  else ((net url), cache, [url])

/-- `clearRegistryCache()`: the only invalidation the module offers. -/
def clearRegistryCache (_cache : List (String × Except String JVal)) :
    List (String × Except String JVal) :=
  []

/-! ### Workspace path guard (`utils/security.ts`) -/

/-- Segment processing of POSIX path normalization: empty and `.`
segments vanish, `..` pops the last kept segment (or vanishes at the
root), others are kept. The accumulator is the reversed list of kept
segments. -/
def normSegs : List String → List String → List String
  | acc, [] => acc.reverse
  | acc, seg :: rest =>
    if seg = "" || seg = "." then normSegs acc rest
    else if seg = ".." then normSegs acc.tail rest
    else normSegs (seg :: acc) rest

/-- Node `path.normalize` on an absolute path (the model canonicalizes:
no trailing separator is kept; all paths this program normalizes are
absolute — the workspace dir, and `path.resolve` results). -/
def normAbs (s : String) : String :=
  "/" ++ String.intercalate "/" (normSegs [] (s.splitOn "/"))

/-- Node `path.resolve(base, p)` with an absolute `base`: an absolute `p`
normalizes on its own, a relative one resolves under `base`. -/
def resolvePath (base p : String) : String :=
  if strStarts "/" p then normAbs p else normAbs (base ++ "/" ++ p)

/-- The Windows-drive pattern `/^[a-zA-Z]:\\/`. -/
def winDrive (s : String) : Bool :=
  match s.data with
  | c1 :: c2 :: c3 :: _ =>
    (('a' ≤ c1 && c1 ≤ 'z') || ('A' ≤ c1 && c1 ≤ 'Z')) && c2 = ':' && c3 = '\\'
  | _ => false

/-- The `dangerousPatterns` loop of `validateWorkspacePath`, applied to
the processed path: `/\.\./`, `/\/\.\./`, `/\\\.\./`, `/\.\.$/`, `/\/$/`,
`/^\/+/`, `/^[a-zA-Z]:\\/`. -/
def dangerousPath (p : String) : Bool :=
  hasSub ".." p || hasSub "/.." p || hasSub "\\.." p || strEnds ".." p
    || strEnds "/" p || strStarts "/" p || winDrive p

/-- The `~/`-stripping step of `validateWorkspacePath`:
`inputPath.replace("~/", "")` for inputs starting with `~/` (the first
occurrence is the two-character head). -/
def guardProcessed (inputPath : String) : String :=
  if strStarts "~/" inputPath then String.mk (inputPath.data.drop 2) else inputPath

/-- `path.normalize(path.resolve(workspaceDir, processedPath))` as
computed inside `validateWorkspacePath`. -/
def guardResolved (inputPath workspaceDir : String) : String :=
  normAbs (resolvePath workspaceDir (guardProcessed inputPath))

/-- The boundary violation `validateWorkspacePath` tests: the normalized
resolved path neither extends the normalized workspace by a separator nor
equals it. -/
def outsideWorkspace (inputPath workspaceDir : String) : Prop :=
  strStarts (normAbs workspaceDir ++ "/") (guardResolved inputPath workspaceDir) = false
    ∧ guardResolved inputPath workspaceDir ≠ normAbs workspaceDir

instance (inputPath workspaceDir : String) :
    Decidable (outsideWorkspace inputPath workspaceDir) := by
  unfold outsideWorkspace
  infer_instance

/-- `validateWorkspacePath(inputPath, workspaceDir)` from
`utils/security.ts`: reject empty input and null bytes; strip a leading
`~/` (rejecting `..` or an absolute remainder); resolve against the
workspace and reject when the normalized result leaves the workspace;
finally reject the dangerous patterns. On success the normalized absolute
path is returned. -/
def validateWorkspacePath (inputPath workspaceDir : String) :
    Except String String :=
  if inputPath = "" then
    .error "Invalid path: path must be a non-empty string"
  else if inputPath.data.contains nullChar then
    .error "Invalid path: null bytes not allowed"
  else if strStarts "~/" inputPath
      && (hasSub ".." (guardProcessed inputPath)
          || strStarts "/" (guardProcessed inputPath)) then
    .error "Invalid home directory path: path traversal detected"
  else if outsideWorkspace inputPath workspaceDir then
    .error ("Path outside workspace not allowed: " ++ inputPath)
  else if dangerousPath (guardProcessed inputPath) then
    .error ("Dangerous path pattern detected: " ++ inputPath)
  else .ok (guardResolved inputPath workspaceDir)

/-- `getSafeWorkspaceCwd(rawCwd)`: prefer the `/workspace` convention
directory when it exists (ignoring the caller's value), else a non-empty
`WORKSPACE_DIR`, else the caller-supplied value as given — with no
validation of any kind — else throw. JavaScript truthiness makes empty
strings fall through. -/
def getSafeWorkspaceCwd (rawCwd : Option String) (workspaceExists : Bool)
    (envWorkspaceDir : Option String) : Except String String :=
  if workspaceExists then .ok "/workspace"
  else if envWorkspaceDir.getD "" ≠ "" then .ok (envWorkspaceDir.getD "")
  else if rawCwd.getD "" ≠ "" then .ok (rawCwd.getD "")
  else .error "Could not determine a safe working directory. /workspace not found and WORKSPACE_DIR is not set."

/-! ### Rate limiting and tool registration (`index.ts`) -/

/-- `MAX_CONCURRENT_OPERATIONS` from `index.ts`. -/
def MAX_CONCURRENT_OPERATIONS : Nat := 5

/-- What happens to one tool invocation at the rate-limit boundary. -/
inductive StartOutcome where
  | accepted
  | rejected
deriving Repr, DecidableEq

/-- The synchronous admission check of `withRateLimit`: at or above the
ceiling the call throws `Too many concurrent operations` without being
queued; below it the active-operations counter increments and the handler
runs. The check and increment happen in one synchronous slice, so they
are atomic under Node's single-threaded scheduling. -/
def rateLimitStart (active : Nat) : StartOutcome × Nat :=
  if active ≥ MAX_CONCURRENT_OPERATIONS then (.rejected, active)
  else (.accepted, active + 1)

/-- The `finally` block of `withRateLimit`: the counter decrements when a
wrapped handler settles. -/
def rateLimitFinish (active : Nat) : Nat :=
  active - 1

/-- `k` invocations of a rate-limited tool arriving while none of them
has settled (their admission checks all run before any handler completes):
returns (accepted count, rejected count, final active counter). -/
def runStarts : Nat → Nat → Nat × Nat × Nat
  | 0, active => (0, 0, active)
  | k + 1, active =>
    match rateLimitStart active with
    | (.accepted, a) => let (x, y, f) := runStarts k a; (x + 1, y, f)
    | (.rejected, a) => let (x, y, f) := runStarts k a; (x, y + 1, f)

/-- The active-operation counts reachable from process start through any
interleaving of admissions and completions. -/
inductive Reachable : Nat → Prop
  | init : Reachable 0
  | start (n : Nat) : Reachable n → n < MAX_CONCURRENT_OPERATIONS → Reachable (n + 1)
  | finish (n : Nat) : Reachable n → Reachable (n - 1)

/-- The tool registrations of `main()` in `index.ts`, in source order:
tool name and whether its handler is wrapped in `withRateLimit`. -/
def toolRegistrations : List (String × Bool) :=
  [("get_init_instructions", false),
   ("execute_init", true),
   ("get_items", false),
   ("get_item", false),
   ("add_item", false),
   ("execute_add", true),
   ("get_blocks", false)]

/-- Whether a registered tool's handler passes through `withRateLimit`. -/
def isRateLimited (tool : String) : Bool :=
  (alookup toolRegistrations tool).getD false

/-- Invoking a registered tool at a given active-operation count: a
rate-limited handler goes through the admission check; an unwrapped
handler starts unconditionally and never touches the counter. -/
def invokeTool (tool : String) (active : Nat) : StartOutcome × Nat :=
  if isRateLimited tool then rateLimitStart active else (.accepted, active)

/-! ### Concrete fixtures for counterexample evaluations -/

/-- A plain component item named `a`, reachable at the URL reference `u`. -/
def cexComponentItem : RItem := { name := "a", type := "registry:component" }

/-- An environment whose only resolvable reference is the URL `u`,
serving `cexComponentItem`. -/
def envDup : Env :=
  { isU := fun s => s = "u"
    table := [("u", .ok cexComponentItem)]
    cfg := true
    indexFetch := .ok ()
    nameToUrl := id
    fetchBatch := fun _ => .ok (some [])
    themeFetch := .error "not fetched"
    baseColor := false }

/-- A theme item named `a`. -/
def cexThemeA : RItem := { name := "a", type := "registry:theme" }

/-- A theme item named `b`. -/
def cexThemeB : RItem := { name := "b", type := "registry:theme" }

/-- An environment serving two theme items at the URL references `u1`
(item `a`) and `u2` (item `b`). -/
def envTwoThemes : Env :=
  { isU := fun s => s = "u1" || s = "u2"
    table := [("u1", .ok cexThemeA), ("u2", .ok cexThemeB)]
    cfg := true
    indexFetch := .ok ()
    nameToUrl := id
    fetchBatch := fun _ => .ok (some [])
    themeFetch := .error "not fetched"
    baseColor := false }

/-- A component contributing the style-variable array `light = ["a"]`. -/
def cexCssItem1 : RItem :=
  { name := "c1", type := "registry:component"
    cssVars := some (.obj [("light", .arr [.prim "a"])]) }

/-- A component contributing the style-variable array `light = ["b"]`. -/
def cexCssItem2 : RItem :=
  { name := "c2", type := "registry:component"
    cssVars := some (.obj [("light", .arr [.prim "b"])]) }

/-- An item that lists itself as a registry dependency. -/
def cexSelfDepItem : RItem :=
  { name := "a", type := "registry:component"
    registryDependencies := some ["a"] }

/-- An environment with a one-node dependency cycle: resolving `a`
re-encounters `a`. -/
def envCyclic : Env :=
  { isU := fun _ => false
    table := [("a", .ok cexSelfDepItem)]
    cfg := true
    indexFetch := .ok ()
    nameToUrl := id
    fetchBatch := fun _ => .ok none
    themeFetch := .error "not fetched"
    baseColor := false }

/-! ## Supporting lemmas -/

theorem binSearchPos_allNeg (cmp : RItem → RItem → Int) (pivot : RItem)
    (sorted : List RItem) (h : ∀ y, cmp pivot y < 0) :
    ∀ lo hi, binSearchPos cmp pivot sorted lo hi = lo := by
  suffices H : ∀ n lo hi, hi - lo = n → binSearchPos cmp pivot sorted lo hi = lo by
    exact fun lo hi => H (hi - lo) lo hi rfl
  intro n
  induction n using Nat.strong_induction_on with
  | _ n ih =>
    intro lo hi hn
    rw [binSearchPos]
    by_cases hlt : lo < hi
    · rw [dif_pos hlt, if_pos (h _)]
      exact ih ((lo + hi) / 2 - lo) (by omega) lo ((lo + hi) / 2) rfl
    · rw [dif_neg hlt]

theorem binSearchPos_allNonneg (cmp : RItem → RItem → Int) (pivot : RItem)
    (sorted : List RItem) (h : ∀ y, 0 ≤ cmp pivot y) :
    ∀ lo hi, lo ≤ hi → binSearchPos cmp pivot sorted lo hi = hi := by
  suffices H : ∀ n lo hi, hi - lo = n → lo ≤ hi →
      binSearchPos cmp pivot sorted lo hi = hi by
    exact fun lo hi hle => H (hi - lo) lo hi rfl hle
  intro n
  induction n using Nat.strong_induction_on with
  | _ n ih =>
    intro lo hi hn hle
    rw [binSearchPos]
    by_cases hlt : lo < hi
    · rw [dif_pos hlt, if_neg (by exact not_lt.mpr (h _))]
      exact ih (hi - ((lo + hi) / 2 + 1)) (by omega) ((lo + hi) / 2 + 1) hi rfl (by omega)
    · rw [dif_neg hlt]
      omega

theorem binInsert_theme (acc : List RItem) (x : RItem) (hx : isTheme x = true) :
    binInsert themeCompare acc x = x :: acc := by
  simp only [isTheme, decide_eq_true_eq] at hx
  unfold binInsert
  rw [binSearchPos_allNeg]
  · simp
  · intro y
    simp [themeCompare, hx]

theorem binInsert_nontheme (acc : List RItem) (x : RItem)
    (hx : isTheme x = false) :
    binInsert themeCompare acc x = acc ++ [x] := by
  simp only [isTheme, decide_eq_false_iff_not] at hx
  unfold binInsert
  rw [binSearchPos_allNonneg]
  · simp
  · intro y
    simp [themeCompare, hx]
  · exact Nat.zero_le _

theorem foldl_binInsert_themeCompare (l : List RItem) :
    ∀ acc, l.foldl (binInsert themeCompare) acc
      = (l.filter isTheme).reverse ++ acc ++ l.filter (fun it => !(isTheme it)) := by
  induction l with
  | nil => intro acc; simp
  | cons x xs ih =>
    intro acc
    cases hx : isTheme x with
    | true =>
      simp only [List.foldl_cons, binInsert_theme acc x hx, List.filter_cons, hx]
      rw [ih (x :: acc)]
      simp
    | false =>
      simp only [List.foldl_cons, binInsert_nontheme acc x hx, List.filter_cons, hx]
      rw [ih (acc ++ [x])]
      simp

theorem foldl_setDedup (l : List String) :
    ∀ acc, l.foldl (fun acc x => if x ∈ acc then acc else acc ++ [x]) acc
      = acc ++ dedupFirstSpec (l.filter fun y => y ∉ acc) := by
  induction l with
  | nil => intro acc; simp [dedupFirstSpec]
  | cons x xs ih =>
    intro acc
    simp only [List.foldl_cons, List.filter_cons]
    by_cases hx : x ∈ acc
    · rw [if_pos hx, ih]
      simp [hx]
    · rw [if_neg hx]
      rw [ih (acc ++ [x])]
      have hfilter : xs.filter (fun y => decide (y ∉ acc ++ [x]))
          = (xs.filter fun y => y ∉ acc).filter fun y => y ≠ x := by
        rw [List.filter_filter]
        apply List.filter_congr
        intro y _
        simp only [List.mem_append, List.mem_singleton, decide_not]
        by_cases h1 : y ∈ acc <;> by_cases h2 : y = x <;> simp [h1, h2]
      rw [hfilter]
      simp only [decide_not, hx, decide_False, Bool.not_false, if_pos]
      rw [dedupFirstSpec]
      simp

theorem setDedup_eq (l : List String) : setDedup l = dedupFirstSpec l := by
  unfold setDedup
  rw [foldl_setDedup l []]
  simp

theorem mem_dedupFirstSpec (l : List String) (x : String) :
    x ∈ dedupFirstSpec l ↔ x ∈ l := by
  induction l using dedupFirstSpec.induct with
  | case1 => simp [dedupFirstSpec]
  | case2 y ys ih =>
    rw [dedupFirstSpec]
    simp only [List.mem_cons, ih, List.mem_filter]
    by_cases h : x = y <;> simp [h]

theorem nodup_dedupFirstSpec (l : List String) : (dedupFirstSpec l).Nodup := by
  induction l using dedupFirstSpec.induct with
  | case1 => simp [dedupFirstSpec]
  | case2 y ys ih =>
    rw [dedupFirstSpec]
    refine List.nodup_cons.mpr ⟨?_, ih⟩
    intro hmem
    have := (mem_dedupFirstSpec _ _).1 hmem
    simp [List.mem_filter] at this

theorem alookup_setKey_same (dest : List (String × JVal)) (k : String) (v : JVal) :
    alookup (setKey dest k v) k = some v := by
  induction dest with
  | nil => simp [setKey, alookup]
  | cons p rest ih =>
    obtain ⟨k0, v0⟩ := p
    simp only [setKey]
    by_cases hk : k0 = k
    · rw [if_pos hk]
      simp [alookup, hk]
    · rw [if_neg hk]
      simp [alookup, hk, ih]

theorem alookup_setKey_other (dest : List (String × JVal)) (k0 k : String)
    (v : JVal) (h : k0 ≠ k) :
    alookup (setKey dest k0 v) k = alookup dest k := by
  induction dest with
  | nil => simp [setKey, alookup, h]
  | cons p rest ih =>
    obtain ⟨k1, v1⟩ := p
    simp only [setKey]
    by_cases hk : k1 = k0
    · rw [if_pos hk]
      subst hk
      simp [alookup, h]
    · rw [if_neg hk]
      simp only [alookup]
      by_cases hk1 : k1 = k
      · simp [hk1]
      · simp [hk1, ih]

theorem alookup_none_of_not_mem {α : Type} (l : List (String × α)) (k : String)
    (h : k ∉ l.map Prod.fst) : alookup l k = none := by
  induction l with
  | nil => simp [alookup]
  | cons p rest ih =>
    simp only [List.map_cons, List.mem_cons] at h
    push_neg at h
    simp only [alookup]
    rw [if_neg (fun he => h.1 he.symm), ih h.2]

theorem mergeFields_alookup (t : JVal) (fs : List (String × JVal)) :
    ∀ dest k, (objKeys fs).Nodup →
      alookup (mergeFields t dest fs) k =
        match alookup fs k with
        | some v => some (mergeVal t k v)
        | none => alookup dest k := by
  induction fs with
  | nil => intro dest k _; simp [mergeFields, alookup]
  | cons p rest ih =>
    intro dest k hnd
    obtain ⟨k0, v0⟩ := p
    rw [mergeFields]
    have hnd2 : (objKeys rest).Nodup ∧ k0 ∉ objKeys rest := by
      simp only [objKeys, List.map_cons, List.nodup_cons] at hnd
      exact ⟨hnd.2, hnd.1⟩
    rw [ih _ k hnd2.1]
    by_cases hk : k0 = k
    · subst hk
      have hnone : alookup rest k0 = none :=
        alookup_none_of_not_mem rest k0 hnd2.2
      rw [hnone]
      simp [alookup, alookup_setKey_same]
    · simp only [alookup, hk, if_false]
      cases halr : alookup rest k
      · simp [alookup_setKey_other dest k0 k _ hk]
      · simp

theorem foldl_deepmerge_arr (ls : List (List JVal)) :
    ∀ acc, (ls.map JVal.arr).foldl deepmerge (.arr acc) = .arr (acc ++ ls.flatten) := by
  induction ls with
  | nil => intro acc; simp
  | cons b bs ih =>
    intro acc
    simp only [List.map_cons, List.foldl_cons]
    have : deepmerge (.arr acc) (.arr b) = .arr (acc ++ b) := by simp [deepmerge]
    rw [this, ih]
    simp

theorem deepmergeAll_arrs (ls : List (List JVal)) (h : ls ≠ []) :
    deepmergeAll (ls.map JVal.arr) = .arr ls.flatten := by
  cases ls with
  | nil => exact absurd rfl h
  | cons a as =>
    unfold deepmergeAll
    simp only [List.map_cons, List.foldl_cons]
    have : deepmerge (.obj []) (.arr a) = .arr a := by simp [deepmerge]
    rw [this, foldl_deepmerge_arr]
    simp

theorem finalContentAt_lastWins (files : List FileD) (t : String) :
    finalContentAt files t
      = ((files.filter fun f => f.target = t).getLast?).map FileD.content := by
  induction files using List.reverseRecOn with
  | nil => simp [finalContentAt]
  | append_singleton l f ih =>
    unfold finalContentAt at *
    rw [List.foldl_append]
    simp only [List.foldl_cons, List.foldl_nil]
    by_cases hf : f.target = t
    · rw [if_pos hf, List.filter_append]
      simp [hf]
    · rw [if_neg hf, ih, List.filter_append]
      simp [hf]

theorem listSub_drop2 (l : List Char)
    (h : listSub ['.', '.'] ('~' :: '/' :: l) = true) :
    listSub ['.', '.'] l = true := by
  simp only [listSub, List.isPrefixOf] at h
  have e1 : (('.' : Char) == '~') = false := by decide
  have e2 : (('.' : Char) == '/') = false := by decide
  rw [e1, e2] at h
  simpa using h

theorem hasSub_guardProcessed (input : String)
    (htl : strStarts "~/" input = true) (hdd : hasSub ".." input = true) :
    hasSub ".." (guardProcessed input) = true := by
  have hdata : "~/".data = ['~', '/'] := by decide
  have hdot : "..".data = ['.', '.'] := by decide
  unfold strStarts at htl
  rw [hdata] at htl
  unfold hasSub at hdd ⊢
  rw [hdot] at hdd ⊢
  unfold guardProcessed
  rw [if_pos (by unfold strStarts; rw [hdata]; exact htl)]
  rcases hd : input.data with _ | ⟨c1, tl1⟩
  · rw [hd] at htl; simp [List.isPrefixOf] at htl
  · rcases hd2 : tl1 with _ | ⟨c2, rest⟩
    · rw [hd, hd2] at htl; simp [List.isPrefixOf] at htl
    · rw [hd, hd2] at htl
      simp only [List.isPrefixOf, Bool.and_eq_true, beq_iff_eq] at htl
      obtain ⟨hc1, hc2, -⟩ := htl
      subst hc1
      subst hc2
      rw [hd, hd2] at hdd
      show listSub ['.', '.'] (List.drop 2 ('~' :: '/' :: rest)) = true
      simp only [List.drop]
      exact listSub_drop2 rest hdd

/-- An explicit unfolding of `resolveDeps` on a non-empty worklist, with
the fetch and dependency matches in rewriting-friendly form. -/
theorem resolveDeps_cons (env : Env) (dep : String) (rest visited : List String) :
    resolveDeps env (dep :: rest) visited =
      if dep ∈ visited then resolveDeps env rest visited
      else
        if env.isU dep || isLocalFile env dep then
          match fetchItem env dep with
          | .error e => .err e [dep]
          | .ok item =>
            match item.registryDependencies with
            | some rdeps =>
              match resolveDeps env rdeps (dep :: visited) with
              | .err e tr => .err e (dep :: tr)
              | .ok nItems nNames nTr =>
                match resolveDeps env rest (nTr ++ dep :: visited) with
                | .err e tr => .err e (dep :: nTr ++ tr)
                | .ok cItems cNames cTr =>
                  .ok (item :: nItems ++ cItems) (nNames ++ cNames) (dep :: nTr ++ cTr)
            | none =>
              match resolveDeps env rest (dep :: visited) with
              | .err e tr => .err e (dep :: tr)
              | .ok cItems cNames cTr => .ok (item :: cItems) cNames (dep :: cTr)
        else
          if env.cfg then
            match fetchItem env dep with
            | .error _ =>
              match resolveDeps env rest (dep :: visited) with
              | .err e tr => .err e (dep :: tr)
              | .ok cItems cNames cTr => .ok cItems (dep :: cNames) (dep :: cTr)
            | .ok item =>
              match item.registryDependencies with
              | some rdeps =>
                match resolveDeps env rdeps (dep :: visited) with
                | .err _ eTr =>
                  match resolveDeps env rest (eTr ++ dep :: visited) with
                  | .err e tr => .err e (dep :: eTr ++ tr)
                  | .ok cItems cNames cTr => .ok cItems (dep :: cNames) (dep :: eTr ++ cTr)
                | .ok nItems nNames nTr =>
                  match resolveDeps env rest (nTr ++ dep :: visited) with
                  | .err e tr => .err e (dep :: nTr ++ tr)
                  | .ok cItems cNames cTr =>
                    .ok (nItems ++ cItems) (dep :: nNames ++ cNames) (dep :: nTr ++ cTr)
              | none =>
                match resolveDeps env rest (dep :: visited) with
                | .err e tr => .err e (dep :: tr)
                | .ok cItems cNames cTr => .ok cItems (dep :: cNames) (dep :: cTr)
          else
            match resolveDeps env rest (dep :: visited) with
            | .err e tr => .err e (dep :: tr)
            | .ok cItems cNames cTr => .ok cItems (dep :: cNames) (dep :: cTr) := by
  rw [resolveDeps]
  by_cases hvis : dep ∈ visited
  · rw [dif_pos hvis, if_pos hvis]
  · rw [dif_neg hvis, if_neg hvis]
    by_cases hurl : (env.isU dep || isLocalFile env dep) = true
    · rw [if_pos hurl, if_pos hurl]
      split
      · rename_i e heq
        simp only [heq]
      · rename_i item heq
        simp only [heq]
        split
        · rename_i rdeps heq2
          simp only [heq2]
        · rename_i heq2
          simp only [heq2]
    · rw [if_neg hurl, if_neg hurl]
      by_cases hcfg : env.cfg = true
      · rw [if_pos hcfg, if_pos hcfg]
        split
        · rename_i e heq
          simp only [heq]
        · rename_i item heq
          simp only [heq]
          split
          · rename_i rdeps heq2
            simp only [heq2]
          · rename_i heq2
            simp only [heq2]
      · rw [if_neg hcfg, if_neg hcfg]

theorem tr_cons_ok (dep : String) (tr visited : List String)
    (hdep : dep ∉ visited) (h1 : tr.Nodup)
    (h2 : ∀ x ∈ tr, x ∉ dep :: visited) :
    (dep :: tr).Nodup ∧ ∀ x ∈ dep :: tr, x ∉ visited := by
  constructor
  · refine List.nodup_cons.mpr ⟨?_, h1⟩
    intro hmem
    exact h2 dep hmem (List.mem_cons_self _ _)
  · intro x hx
    rcases List.mem_cons.mp hx with rfl | hx'
    · exact hdep
    · exact fun hv => h2 x hx' (List.mem_cons_of_mem _ hv)

theorem tr_combine (dep : String) (nTr cTr visited : List String)
    (hdep : dep ∉ visited)
    (h1 : nTr.Nodup) (h2 : ∀ x ∈ nTr, x ∉ dep :: visited)
    (h3 : cTr.Nodup) (h4 : ∀ x ∈ cTr, x ∉ nTr ++ dep :: visited) :
    (dep :: nTr ++ cTr).Nodup ∧ ∀ x ∈ dep :: nTr ++ cTr, x ∉ visited := by
  constructor
  · refine List.nodup_cons.mpr ⟨?_, ?_⟩
    · intro hmem
      rcases List.mem_append.mp hmem with hn | hc
      · exact h2 dep hn (List.mem_cons_self _ _)
      · exact h4 dep hc (List.mem_append_right _ (List.mem_cons_self _ _))
    · refine List.nodup_append.mpr ⟨h1, h3, ?_⟩
      intro x hx hx'
      exact h4 x hx' (List.mem_append_left _ hx)
  · intro x hx
    rcases List.mem_cons.mp hx with rfl | hx'
    · exact hdep
    · rcases List.mem_append.mp hx' with hn | hc
      · exact fun hv => h2 x hn (List.mem_cons_of_mem _ hv)
      · exact fun hv => h4 x hc (List.mem_append_right _ (List.mem_cons_of_mem _ hv))

/-- Every non-ok response makes `processResponse` surface the generic
message thrown by `validateHttpResponse`; the status-specific branches of
`fetchRegistry` never run. -/
theorem fetchRegistry_nonOk_generic (parse : String → Option JVal)
    (url : String) (r : HttpResp) (h : respOk r = false) :
    processResponse parse url r
      = .error ("HTTP error: " ++ toString r.status ++ " "
          ++ (if r.statusText = "" then "Unknown error" else r.statusText)) := by
  simp [processResponse, validateHttpResponse, h]

/-! ## Claim theorems -/

/-- Claim C1 (amended): the sort `registryResolveItemsTree` applies places
every `registry:theme` item before every non-theme item and keeps the
non-theme items in discovery order, but it is not a stable sort — the
theme items come out in reverse discovery order, because the comparator
returns -1 whenever its first argument is a theme. -/
theorem jsSort_theme_first (l : List RItem) :
    jsSort themeCompare l
      = (l.filter isTheme).reverse ++ l.filter (fun it => !(isTheme it)) := by
  unfold jsSort
  rw [foldl_binInsert_themeCompare l []]
  simp

/-- Claim C1 counterexample: two theme items discovered in the order
`a`, `b` leave `registryResolveItemsTree` in the order `b`, `a` — the
relative discovery order of items the comparator ties is not preserved,
so the sort is not stable. -/
theorem themeSort_not_stable_cex :
    itemNames (resolveItemList envTwoThemes ["u1", "u2"]) = ["b", "a"] ∧
    (["b", "a"] : List String) ≠ ["a", "b"] := by
  constructor
  · have h1 : isLocalFile envTwoThemes "u1" = false := by
      simp [isLocalFile, envTwoThemes]
    have h1' : isLocalFile envTwoThemes "u2" = false := by
      simp [isLocalFile, envTwoThemes]
    have h2 : envTwoThemes.isU "u1" = true := by simp [envTwoThemes]
    have h2' : envTwoThemes.isU "u2" = true := by simp [envTwoThemes]
    simp [resolveItemList, h1, h1', h2, h2', fetchDirect, fetchItem,
      envTwoThemes, alookup, cexThemeA, cexThemeB, resolveDeps, itemNames,
      jsSort_theme_first, isTheme]
  · simp

/-- Claim C2 (amended): the registry-name references are deduplicated
before fetching with insertion-ordered set semantics — the first
occurrence of each name wins — and the result has no duplicates (when
"index" is not among the names; when it is, `unshift` prepends a second
"index"). The resolved item list itself is not deduplicated by name. -/
theorem registryNames_dedup_first_wins (l : List String) (h : "index" ∉ l) :
    uniqueRegistryNames l = dedupFirstSpec l ∧ (uniqueRegistryNames l).Nodup := by
  have hs := setDedup_eq l
  have hmem : "index" ∉ setDedup l := by
    rw [hs]
    exact fun hm => h ((mem_dedupFirstSpec _ _).1 hm)
  constructor
  · simp only [uniqueRegistryNames]
    rw [if_neg hmem, hs]
  · simp only [uniqueRegistryNames]
    rw [if_neg hmem, hs]
    exact nodup_dedupFirstSpec l

theorem registryNames_dedup_first_wins_witness :
    uniqueRegistryNames ["button", "card", "button"]
      = dedupFirstSpec ["button", "card", "button"] ∧
    (uniqueRegistryNames ["button", "card", "button"]).Nodup :=
  registryNames_dedup_first_wins ["button", "card", "button"] (by decide)

/-- Claim C2 counterexample: the same URL reference supplied twice yields
a resolved item list with two entries of the same name — the payload is
never deduplicated by name. -/
theorem resolvedItems_duplicate_names_cex :
    itemNames (resolveItemList envDup ["u", "u"]) = ["a", "a"] ∧
    ¬ (["a", "a"] : List String).Nodup := by
  constructor
  · have h1 : isLocalFile envDup "u" = false := by
      simp [isLocalFile, envDup]
    have h2 : envDup.isU "u" = true := by simp [envDup]
    simp [resolveItemList, h1, h2, fetchDirect, fetchItem, envDup, alookup,
      cexComponentItem, resolveDeps, itemNames, jsSort_theme_first, isTheme]
  · simp

/-- Claim C3: the merged `dependencies`, `devDependencies` and `files`
fields of the resolved tree are the in-order concatenations of the
per-item lists (`deepmerge.all` concatenates arrays); downstream,
`updateDependencies` deduplicates the dependency strings keeping first
occurrences, and sequential file writes make the last descriptor for a
target path determine its final content. -/
theorem mergeEngine_list_fields (payload : List RItem) (h : payload ≠ []) :
    treeDependencies payload
        = .arr ((payload.map fun it => (it.dependencies.getD []).map JVal.prim).flatten) ∧
    treeDevDependencies payload
        = .arr ((payload.map fun it => (it.devDependencies.getD []).map JVal.prim).flatten) ∧
    treeFiles payload
        = .arr ((payload.map fun it => (it.files.getD []).map fileJVal).flatten) ∧
    (∀ deps : List String, updateDependenciesDedup deps = dedupFirstSpec deps ∧
      (updateDependenciesDedup deps).Nodup) ∧
    (∀ files : List FileD, ∀ t : String,
      finalContentAt files t
        = ((files.filter fun f => f.target = t).getLast?).map FileD.content) := by
  have hmap : ∀ (g : RItem → List JVal),
      payload.map (fun it => JVal.arr (g it)) = (payload.map g).map JVal.arr := by
    intro g
    rw [List.map_map]
    rfl
  have hne : ∀ (g : RItem → List JVal), payload.map g ≠ [] := by
    intro g hg
    exact h (List.map_eq_nil_iff.mp hg)
  refine ⟨?_, ?_, ?_, ?_, fun files t => finalContentAt_lastWins files t⟩
  · unfold treeDependencies
    rw [hmap, deepmergeAll_arrs _ (hne _)]
  · unfold treeDevDependencies
    rw [hmap, deepmergeAll_arrs _ (hne _)]
  · unfold treeFiles
    rw [hmap, deepmergeAll_arrs _ (hne _)]
  · intro deps
    exact ⟨setDedup_eq deps, by
      unfold updateDependenciesDedup
      rw [setDedup_eq]
      exact nodup_dedupFirstSpec deps⟩

theorem mergeEngine_list_fields_witness :
    treeDependencies [cexCssItem1, cexCssItem2]
        = .arr (([cexCssItem1, cexCssItem2].map fun it =>
            (it.dependencies.getD []).map JVal.prim).flatten) ∧
    treeDevDependencies [cexCssItem1, cexCssItem2]
        = .arr (([cexCssItem1, cexCssItem2].map fun it =>
            (it.devDependencies.getD []).map JVal.prim).flatten) ∧
    treeFiles [cexCssItem1, cexCssItem2]
        = .arr (([cexCssItem1, cexCssItem2].map fun it =>
            (it.files.getD []).map fileJVal).flatten) ∧
    (∀ deps : List String, updateDependenciesDedup deps = dedupFirstSpec deps ∧
      (updateDependenciesDedup deps).Nodup) ∧
    (∀ files : List FileD, ∀ t : String,
      finalContentAt files t
        = ((files.filter fun f => f.target = t).getLast?).map FileD.content) :=
  mergeEngine_list_fields [cexCssItem1, cexCssItem2] (by simp)

/-- Claim C4 (amended): `deepmerge` merges trees left-to-right with the
later item winning on overlapping leaf keys and recursion on overlapping
mergeable keys, keys only on the earlier object are preserved — but two
arrays are concatenated (earlier elements first), not replaced
wholesale. -/
theorem deepmerge_semantics :
    (∀ a b : List JVal, deepmerge (.arr a) (.arr b) = .arr (a ++ b)) ∧
    (∀ tf sf k v, (objKeys sf).Nodup → alookup sf k = some v →
      isMergeable v = false →
      lookupKey (deepmerge (.obj tf) (.obj sf)) k = some v) ∧
    (∀ tf sf k tv sv, (objKeys sf).Nodup → alookup tf k = some tv →
      alookup sf k = some sv → isMergeable sv = true →
      lookupKey (deepmerge (.obj tf) (.obj sf)) k = some (deepmerge tv sv)) ∧
    (∀ tf sf k, (objKeys sf).Nodup → alookup sf k = none →
      lookupKey (deepmerge (.obj tf) (.obj sf)) k = alookup tf k) := by
  have hob : ∀ tf sf, deepmerge (.obj tf) (.obj sf)
      = .obj (mergeFields (.obj tf) tf sf) := by
    intro tf sf
    simp [deepmerge]
  refine ⟨fun a b => by simp [deepmerge], ?_, ?_, ?_⟩
  · intro tf sf k v hnd hsv hm
    rw [hob]
    simp only [lookupKey]
    rw [mergeFields_alookup _ _ _ _ hnd, hsv]
    cases hl : lookupKey (.obj tf) k <;> simp [mergeVal, hl, hm]
  · intro tf sf k tv sv hnd htv hsv hm
    rw [hob]
    simp only [lookupKey]
    rw [mergeFields_alookup _ _ _ _ hnd, hsv]
    simp [mergeVal, lookupKey, htv, hm]
  · intro tf sf k hnd hnone
    rw [hob]
    simp only [lookupKey]
    rw [mergeFields_alookup _ _ _ _ hnd, hnone]

theorem deepmerge_semantics_witness :
    lookupKey (deepmerge (.obj [("radius", .prim "0.5rem")])
        (.obj [("radius", .prim "0.625rem")])) "radius"
      = some (.prim "0.625rem") :=
  deepmerge_semantics.2.1 [("radius", .prim "0.5rem")]
    [("radius", .prim "0.625rem")] "radius" (.prim "0.625rem")
    (by simp [objKeys]) (by simp [alookup]) (by simp [isMergeable])

/-- Claim C4 counterexample: two items contributing arrays under the same
style-variable key merge to the concatenation of the arrays, not to the
later item's array alone. -/
theorem deepmerge_concatenates_arrays_cex :
    mergedCssVars [cexCssItem1, cexCssItem2]
      = .obj [("light", .arr [.prim "a", .prim "b"])] ∧
    JVal.obj [("light", .arr [.prim "a", .prim "b"])]
      ≠ .obj [("light", .arr [.prim "b"])] := by
  constructor
  · simp [mergedCssVars, cexCssItem1, cexCssItem2, deepmerge, mergeFields,
      mergeVal, setKey, lookupKey, alookup, isMergeable]
  · simp

/-- Claim C5: `resolveDependenciesRecursively` is a total function of its
oracle (it terminates on every dependency graph, cyclic ones included,
by the growing shared visited set), and the names added to the visited
set during one call are pairwise distinct and disjoint from the names
already visited — each dependency name is processed at most once
regardless of how many items reference it. -/
theorem resolveDeps_visits_each_name_once (env : Env)
    (deps visited : List String) :
    (traceOf (resolveDeps env deps visited)).Nodup ∧
    ∀ x ∈ traceOf (resolveDeps env deps visited), x ∉ visited := by
  induction deps, visited using resolveDeps.induct env with
  | case1 visited =>
    simp [resolveDeps, traceOf]
  | case2 dep rest visited hvis ih =>
    rw [resolveDeps_cons, if_pos hvis]
    exact ih
  | case3 dep rest visited hvis hurl e hfetch =>
    rw [resolveDeps_cons, if_neg hvis, if_pos hurl]
    simp only [hfetch, traceOf]
    exact ⟨List.nodup_singleton _, by simpa using hvis⟩
  | case4 dep rest visited hvis hurl item hfetch rdeps hrd e tr hn ih1 =>
    rw [resolveDeps_cons, if_neg hvis, if_pos hurl]
    simp only [hfetch, hrd, hn, traceOf]
    rw [hn] at ih1
    simp only [traceOf] at ih1
    exact tr_cons_ok dep tr visited hvis ih1.1 ih1.2
  | case5 dep rest visited hvis hurl item hfetch rdeps hrd nItems nNames nTr hn e tr hc ih1 ih2 =>
    rw [resolveDeps_cons, if_neg hvis, if_pos hurl]
    simp only [hfetch, hrd, hn, hc, traceOf]
    rw [hn] at ih1
    rw [hc] at ih2
    simp only [traceOf] at ih1 ih2
    exact tr_combine dep nTr tr visited hvis ih1.1 ih1.2 ih2.1 ih2.2
  | case6 dep rest visited hvis hurl item hfetch rdeps hrd nItems nNames nTr hn cItems cNames cTr hc ih1 ih2 =>
    rw [resolveDeps_cons, if_neg hvis, if_pos hurl]
    simp only [hfetch, hrd, hn, hc, traceOf]
    rw [hn] at ih1
    rw [hc] at ih2
    simp only [traceOf] at ih1 ih2
    exact tr_combine dep nTr cTr visited hvis ih1.1 ih1.2 ih2.1 ih2.2
  | case7 dep rest visited hvis hurl item hfetch hrd e tr hc ih =>
    rw [resolveDeps_cons, if_neg hvis, if_pos hurl]
    simp only [hfetch, hrd, hc, traceOf]
    rw [hc] at ih
    simp only [traceOf] at ih
    exact tr_cons_ok dep tr visited hvis ih.1 ih.2
  | case8 dep rest visited hvis hurl item hfetch hrd cItems cNames cTr hc ih =>
    rw [resolveDeps_cons, if_neg hvis, if_pos hurl]
    simp only [hfetch, hrd, hc, traceOf]
    rw [hc] at ih
    simp only [traceOf] at ih
    exact tr_cons_ok dep cTr visited hvis ih.1 ih.2
  | case9 dep rest visited hvis hnu hcfg e hfetch e2 tr hc ih =>
    rw [resolveDeps_cons, if_neg hvis, if_neg hnu, if_pos hcfg]
    simp only [hfetch, hc, traceOf]
    rw [hc] at ih
    simp only [traceOf] at ih
    exact tr_cons_ok dep tr visited hvis ih.1 ih.2
  | case10 dep rest visited hvis hnu hcfg e hfetch cItems cNames cTr hc ih =>
    rw [resolveDeps_cons, if_neg hvis, if_neg hnu, if_pos hcfg]
    simp only [hfetch, hc, traceOf]
    rw [hc] at ih
    simp only [traceOf] at ih
    exact tr_cons_ok dep cTr visited hvis ih.1 ih.2
  | case11 dep rest visited hvis hnu hcfg item hfetch rdeps hrd e eTr hn e2 tr hc ih1 ih2 =>
    rw [resolveDeps_cons, if_neg hvis, if_neg hnu, if_pos hcfg]
    simp only [hfetch, hrd, hn, hc, traceOf]
    rw [hn] at ih1
    rw [hc] at ih2
    simp only [traceOf] at ih1 ih2
    exact tr_combine dep eTr tr visited hvis ih1.1 ih1.2 ih2.1 ih2.2
  | case12 dep rest visited hvis hnu hcfg item hfetch rdeps hrd e eTr hn cItems cNames cTr hc ih1 ih2 =>
    rw [resolveDeps_cons, if_neg hvis, if_neg hnu, if_pos hcfg]
    simp only [hfetch, hrd, hn, hc, traceOf]
    rw [hn] at ih1
    rw [hc] at ih2
    simp only [traceOf] at ih1 ih2
    exact tr_combine dep eTr cTr visited hvis ih1.1 ih1.2 ih2.1 ih2.2
  | case13 dep rest visited hvis hnu hcfg item hfetch rdeps hrd nItems nNames nTr hn e tr hc ih1 ih2 =>
    rw [resolveDeps_cons, if_neg hvis, if_neg hnu, if_pos hcfg]
    simp only [hfetch, hrd, hn, hc, traceOf]
    rw [hn] at ih1
    rw [hc] at ih2
    simp only [traceOf] at ih1 ih2
    exact tr_combine dep nTr tr visited hvis ih1.1 ih1.2 ih2.1 ih2.2
  | case14 dep rest visited hvis hnu hcfg item hfetch rdeps hrd nItems nNames nTr hn cItems cNames cTr hc ih1 ih2 =>
    rw [resolveDeps_cons, if_neg hvis, if_neg hnu, if_pos hcfg]
    simp only [hfetch, hrd, hn, hc, traceOf]
    rw [hn] at ih1
    rw [hc] at ih2
    simp only [traceOf] at ih1 ih2
    exact tr_combine dep nTr cTr visited hvis ih1.1 ih1.2 ih2.1 ih2.2
  | case15 dep rest visited hvis hnu hcfg item hfetch hrd e tr hc ih =>
    rw [resolveDeps_cons, if_neg hvis, if_neg hnu, if_pos hcfg]
    simp only [hfetch, hrd, hc, traceOf]
    rw [hc] at ih
    simp only [traceOf] at ih
    exact tr_cons_ok dep tr visited hvis ih.1 ih.2
  | case16 dep rest visited hvis hnu hcfg item hfetch hrd cItems cNames cTr hc ih =>
    rw [resolveDeps_cons, if_neg hvis, if_neg hnu, if_pos hcfg]
    simp only [hfetch, hrd, hc, traceOf]
    rw [hc] at ih
    simp only [traceOf] at ih
    exact tr_cons_ok dep cTr visited hvis ih.1 ih.2
  | case17 dep rest visited hvis hnu hcfg e tr hc ih =>
    rw [resolveDeps_cons, if_neg hvis, if_neg hnu, if_neg hcfg]
    simp only [hc, traceOf]
    rw [hc] at ih
    simp only [traceOf] at ih
    exact tr_cons_ok dep tr visited hvis ih.1 ih.2
  | case18 dep rest visited hvis hnu hcfg cItems cNames cTr hc ih =>
    rw [resolveDeps_cons, if_neg hvis, if_neg hnu, if_neg hcfg]
    simp only [hc, traceOf]
    rw [hc] at ih
    simp only [traceOf] at ih
    exact tr_cons_ok dep cTr visited hvis ih.1 ih.2

theorem resolveDeps_visits_each_name_once_witness :
    (traceOf (resolveDeps envCyclic ["a", "a"] [])).Nodup :=
  (resolveDeps_visits_each_name_once envCyclic ["a", "a"] []).1

/-- Claim C6: every non-2xx catalog response surfaces the one generic
`HTTP error: <status> <statusText>` message thrown by
`validateHttpResponse` — the 401/403/404-specific branches of
`fetchRegistry` are unreachable — and a path fetch consumes exactly one
response from the network with no retry. -/
theorem fetchRegistry_status_collapse :
    (processResponse (fun _ => none)
        "http://host.docker.internal:3333/r/styles/new-york/button.json"
        { status := 401, statusText := "Unauthorized",
          contentType := some "application/json", contentLength := none,
          bodyText := "" }
      = .error "HTTP error: 401 Unauthorized") ∧
    (processResponse (fun _ => none)
        "http://host.docker.internal:3333/r/styles/new-york/button.json"
        { status := 403, statusText := "Forbidden",
          contentType := some "application/json", contentLength := none,
          bodyText := "" }
      = .error "HTTP error: 403 Forbidden") ∧
    (processResponse (fun _ => none)
        "http://host.docker.internal:3333/r/styles/new-york/button.json"
        { status := 404, statusText := "Not Found",
          contentType := some "application/json", contentLength := none,
          bodyText := "" }
      = .error "HTTP error: 404 Not Found") ∧
    (processResponse (fun _ => none)
        "http://host.docker.internal:3333/r/styles/new-york/button.json"
        { status := 500, statusText := "Internal Server Error",
          contentType := some "application/json", contentLength := none,
          bodyText := "" }
      = .error "HTTP error: 500 Internal Server Error") ∧
    ("HTTP error: 401 Unauthorized"
      ≠ "You are not authorized to access the component at http://host.docker.internal:3333/r/styles/new-york/button.json.\nIf this is a remote registry, you may need to authenticate.") ∧
    (∀ (parse : String → Option JVal) (url : String) (r : HttpResp)
      (more : List HttpResp),
      fetchRegistryPath parse url (r :: more) = (processResponse parse url r, more)) := by
  refine ⟨?_, ?_, ?_, ?_, by decide, fun parse url r more => rfl⟩
  · have h := fetchRegistry_nonOk_generic (fun _ => none)
      "http://host.docker.internal:3333/r/styles/new-york/button.json"
      { status := 401, statusText := "Unauthorized",
        contentType := some "application/json", contentLength := none,
        bodyText := "" } (by decide)
    simpa using h
  · have h := fetchRegistry_nonOk_generic (fun _ => none)
      "http://host.docker.internal:3333/r/styles/new-york/button.json"
      { status := 403, statusText := "Forbidden",
        contentType := some "application/json", contentLength := none,
        bodyText := "" } (by decide)
    simpa using h
  · have h := fetchRegistry_nonOk_generic (fun _ => none)
      "http://host.docker.internal:3333/r/styles/new-york/button.json"
      { status := 404, statusText := "Not Found",
        contentType := some "application/json", contentLength := none,
        bodyText := "" } (by decide)
    simpa using h
  · have h := fetchRegistry_nonOk_generic (fun _ => none)
      "http://host.docker.internal:3333/r/styles/new-york/button.json"
      { status := 500, statusText := "Internal Server Error",
        contentType := some "application/json", contentLength := none,
        bodyText := "" } (by decide)
    simpa using h

/-- Claim C7 (amended): `validateWorkspacePath` rejects every file path
that contains `..`, contains a null byte, or resolves outside the
workspace boundary. Caller-supplied working-directory overrides do not
receive these checks (see the counterexample). -/
theorem validateWorkspacePath_rejects (input ws : String)
    (h : hasSub ".." input = true ∨ input.data.contains nullChar = true ∨
      outsideWorkspace input ws) :
    ∃ e, validateWorkspacePath input ws = Except.error e := by
  unfold validateWorkspacePath
  split_ifs with h1 h2 h3 h4 h5
  · exact ⟨_, rfl⟩
  · exact ⟨_, rfl⟩
  · exact ⟨_, rfl⟩
  · exact ⟨_, rfl⟩
  · exact ⟨_, rfl⟩
  · exfalso
    rcases h with hdd | hnull | hout
    · cases htl : strStarts "~/" input with
      | false =>
        have hgp : guardProcessed input = input := by
          simp [guardProcessed, htl]
        exact h5 (by simp [dangerousPath, hgp, hdd])
      | true =>
        have hp := hasSub_guardProcessed input htl hdd
        exact h3 (by simp [htl, hp])
    · exact h2 hnull
    · exact h4 hout

theorem validateWorkspacePath_rejects_witness :
    ∃ e, validateWorkspacePath "../secret" "/workspace" = Except.error e :=
  validateWorkspacePath_rejects "../secret" "/workspace" (Or.inl (by decide))

/-- Claim C7 counterexample: when `/workspace` is absent and
`WORKSPACE_DIR` unset, `getSafeWorkspaceCwd` returns a caller-supplied
working-directory override containing `..` verbatim, with no rejection. -/
theorem getSafeWorkspaceCwd_returns_raw_override_cex :
    getSafeWorkspaceCwd (some "../../etc") false none = .ok "../../etc" ∧
    hasSub ".." "../../etc" = true := by
  constructor
  · simp [getSafeWorkspaceCwd]
  · decide

/-- Claim C8: `execute_add` is rate limited; six admission checks arriving
with none settled accept exactly five invocations and reject exactly one
(immediately, no queue exists), and no reachable interleaving of
admissions and completions pushes the active count above the ceiling of
five. -/
theorem executeAdd_concurrency_ceiling :
    isRateLimited "execute_add" = true ∧
    runStarts 6 0 = (5, 1, 5) ∧
    ∀ n, Reachable n → n ≤ MAX_CONCURRENT_OPERATIONS := by
  refine ⟨by decide, by decide, fun n h => ?_⟩
  induction h with
  | init => decide
  | start m _ hlt _ => omega
  | finish m _ ih => omega

theorem executeAdd_concurrency_ceiling_witness :
    (5 : Nat) ≤ MAX_CONCURRENT_OPERATIONS :=
  executeAdd_concurrency_ceiling.2.2 5
    (Reachable.start 4
      (Reachable.start 3
        (Reachable.start 2
          (Reachable.start 1
            (Reachable.start 0 Reachable.init (by decide))
            (by decide))
          (by decide))
        (by decide))
      (by decide))

/-- Claim C9: a cache-enabled fetch stores its settlement under the
resolved URL, so a failed fetch is cached: every later cache-enabled
fetch of the same URL observes the same error without touching the
network — whatever the network would now answer — until
`clearRegistryCache` empties the cache, after which the network is
consulted again. -/
theorem fetchRegistry_caches_failures
    (net net2 : String → Except String JVal)
    (cache : List (String × Except String JVal)) (url e : String)
    (hmiss : alookup cache url = none) (hfail : net url = .error e) :
    (fetchCached net cache true url).1 = .error e ∧
    (fetchCached net cache true url).2.2 = [url] ∧
    (fetchCached net2 (fetchCached net cache true url).2.1 true url).1 = .error e ∧
    (fetchCached net2 (fetchCached net cache true url).2.1 true url).2.2 = [] ∧
    (fetchCached net2 (clearRegistryCache (fetchCached net cache true url).2.1) true url).2.2
      = [url] := by
  simp [fetchCached, hmiss, hfail, alookup, clearRegistryCache]

theorem fetchRegistry_caches_failures_witness :
    (fetchCached (fun _ => .error "network down") [] true
        "http://host.docker.internal:3333/r/index.json").1
      = .error "network down" ∧
    (fetchCached (fun _ => .error "network down") [] true
        "http://host.docker.internal:3333/r/index.json").2.2
      = ["http://host.docker.internal:3333/r/index.json"] ∧
    (fetchCached (fun _ => .ok (.obj []))
        (fetchCached (fun _ => .error "network down") [] true
          "http://host.docker.internal:3333/r/index.json").2.1
        true "http://host.docker.internal:3333/r/index.json").1
      = .error "network down" ∧
    (fetchCached (fun _ => .ok (.obj []))
        (fetchCached (fun _ => .error "network down") [] true
          "http://host.docker.internal:3333/r/index.json").2.1
        true "http://host.docker.internal:3333/r/index.json").2.2
      = [] ∧
    (fetchCached (fun _ => .ok (.obj []))
        (clearRegistryCache
          (fetchCached (fun _ => .error "network down") [] true
            "http://host.docker.internal:3333/r/index.json").2.1)
        true "http://host.docker.internal:3333/r/index.json").2.2
      = ["http://host.docker.internal:3333/r/index.json"] :=
  fetchRegistry_caches_failures (fun _ => .error "network down")
    (fun _ => .ok (.obj [])) [] "http://host.docker.internal:3333/r/index.json"
    "network down" rfl rfl

/-- Claim C10: only `execute_init` and `execute_add` are wrapped by
`withRateLimit`; `add_item` is registered without it, so an `add_item`
invocation is accepted at every active-operation count and never touches
the counter — it can never be rejected with the
too-many-concurrent-operations error. -/
theorem addItem_never_rate_limited :
    isRateLimited "add_item" = false ∧
    isRateLimited "execute_init" = true ∧
    isRateLimited "execute_add" = true ∧
    ∀ active : Nat, invokeTool "add_item" active = (.accepted, active) := by
  refine ⟨by decide, by decide, by decide, fun active => ?_⟩
  simp [invokeTool, isRateLimited, toolRegistrations, alookup]

end SRM
